import Mathlib

/-!
# Verification of the hierarchical data-source engine

Shallow embedding of the data-source library (tree builder, tri-state
selection engine, pagination, filtering, search and query rate shaping)
together with proofs and refutations of its specified properties.

Conventions used throughout:

* TypeScript string identities are Lean `String`s; `string | undefined`
  becomes `Option String`.
* Unbounded recursion over the folder graph (which the source performs on
  object references and which need not terminate on cyclic inputs) is
  modelled with an explicit fuel parameter; a result of `none` means the
  recursion did not complete within the given fuel, and non-termination of
  the source corresponds to the fueled function returning `none` for every
  fuel.
* Mutable maps written once and read by key are modelled as functions
  `String → Option _` updated functionally.
-/

/-! ## Pagination (list-data-source.ts, `updatePage` / `paginate`)

The page state is `{page, pageSize}`; both are JS numbers, modelled as
integers so that the "never clamps below zero" part of the claim is a real
statement.  `updatePage` receives the length of the freshly filtered list.
-/

structure Pagination where
  page : Int
  pageSize : Int
deriving DecidableEq

/-- `ListDataSource.updatePage`: after a filter recompute with the new list
length, leave the page alone when the list is empty or when the current
page still points at a non-empty slice, otherwise clamp to
`Math.floor((length - 1) / pageSize)` (JS `Math.floor` of a real division
is integer floor division, `Int.fdiv`). -/
def updatePage (listLength : Nat) (p : Pagination) : Pagination :=
  if listLength = 0 ∨ (listLength : Int) > p.page * p.pageSize then p
  else ⟨Int.fdiv ((listLength : Int) - 1) p.pageSize, p.pageSize⟩

/-- `ListDataSource.paginate`: slice `[page*size, (page+1)*size)`.  For the
embedding we only need it on non-negative pages, hence the `toNat`s. -/
def paginate (l : List α) (p : Pagination) : List α :=
  (l.drop (p.page * p.pageSize).toNat).take ((p.page + 1) * p.pageSize
    - p.page * p.pageSize).toNat

/-! ## Filtering (data-filter.ts, filter-service.ts)

`DataFilter.filter` returns the *input array object* untouched when the
filter is inactive.  To make reference identity observable in a value
semantics, arrays are tagged with an identity; a filter that rebuilds the
list produces a tag of its own choosing, while the inactive path hands back
the very same tagged value. -/

structure ArrRef (α : Type) where
  refId : Nat
  data : List α
deriving DecidableEq

structure DataFilter (σ α : Type) where
  isActive : σ → Bool
  filterFn : σ → ArrRef α → ArrRef α

/-- `DataFilter.filter`: skip the pass entirely when inactive. -/
def DataFilter.filter (f : DataFilter σ α) (state : σ) (list : ArrRef α) : ArrRef α :=
  if f.isActive state then f.filterFn state list else list

/-- `FilterServiceState.filter`: fold the configured filters left to right
over the list. -/
def filterServiceFilter (filters : List (DataFilter σ α)) (state : σ)
    (list : ArrRef α) : ArrRef α :=
  filters.foldl (fun acc f => f.filter state acc) list

/-! ## Fuzzy search front-end (fuse-search.service.ts, `FuseSearcher.search`)

Scores are rationals (the external matcher produces fractional relevance
scores, the synthetic no-query branch produces the element index).  The
external fuzzy matcher is out of scope and supplied as a parameter
`matcher query limit`, returning scored items; `score ?? i` substitutes the
result index when the matcher omits a score. -/

def fuseSearch (matcher : String → Nat → List (α × Option ℚ))
    (collection : List α) (query : Option String) (limit : Nat) :
    List (α × ℚ) :=
  match query with
  | none => (collection.mapIdx fun (i : ℕ) (v : α) => (v, (i : ℚ))).take limit
  | some q =>
    if q.length = 0 then (collection.mapIdx fun (i : ℕ) (v : α) => (v, (i : ℚ))).take limit
    else (matcher q limit).mapIdx fun i r => (r.1, r.2.getD (i : ℚ))

/-! ## Search-query rate shaping (lib/signals.ts, `searchSignal`)

`searchSignal` is simulated as a discrete-time state machine.  The state
holds the committed query value, the pending value for the throttle timer,
the two optional timers (fire time, plus a sequence number so that
simultaneous timers fire in creation order, as JS timers do) and a log of
every `query.set` call with its time stamp. -/

structure SearchSim where
  query : Option String
  nextValue : Option String
  shortT : Option (Nat × Option String × Nat)
  longT : Option (Nat × Nat)
  seq : Nat
  commits : List (Nat × Option String)
deriving DecidableEq

/-- Is the incoming value `undefined` or the empty string? -/
def emptyQuery : Option String → Bool
  | none => true
  | some s => s = ""

/-- One run of the `searchSignal` effect for an input arriving at time `t`:
the cleanup of the previous run clears the pending debounce timer; an empty
value commits immediately and cancels the throttle; a non-empty value arms
a fresh debounce timer, records itself as the throttle's pending value and
arms the throttle only if none is pending. -/
def procInput (debounce throttle : Nat) (st : SearchSim) (t : Nat)
    (v : Option String) : SearchSim :=
  let st := { st with shortT := none }
  if emptyQuery v then
    { st with query := v, commits := st.commits ++ [(t, v)], longT := none }
  else
    let st := { st with shortT := some (t + debounce, v, st.seq),
                        nextValue := v, seq := st.seq + 1 }
    match st.longT with
    | some _ => st
    | none => { st with longT := some (t + throttle, st.seq), seq := st.seq + 1 }

/-- Fire the debounce timer: commit its captured value and cancel the
throttle (`clearThrottle`). -/
def fireShort (st : SearchSim) (ft : Nat) (v : Option String) : SearchSim :=
  { st with query := v, commits := st.commits ++ [(ft, v)],
            shortT := none, longT := none }

/-- Fire the throttle timer: commit the pending `nextValue`. -/
def fireLong (st : SearchSim) (ft : Nat) : SearchSim :=
  { st with query := st.nextValue, commits := st.commits ++ [(ft, st.nextValue)],
            longT := none }

/-- Whether a timer stamped `(fireTime, seqNo)` is due before the cutoff
(`none` = end of input, everything is due). -/
def timerDue (cutoff : Option Nat) (ft : Nat) : Bool :=
  match cutoff with
  | none => true
  | some c => ft ≤ c

/-- Fire the single due timer with the smallest (time, creation order), if
any. -/
def fireOne (st : SearchSim) (cutoff : Option Nat) : Option SearchSim :=
  match st.shortT, st.longT with
  | none, none => none
  | some (ft, v, _), none => if timerDue cutoff ft then some (fireShort st ft v) else none
  | none, some (ft, _) => if timerDue cutoff ft then some (fireLong st ft) else none
  | some (fs, v, ss), some (fl, sl) =>
    if timerDue cutoff fs ∧ (fs < fl ∨ (fs = fl ∧ ss < sl)) then
      some (fireShort st fs v)
    else if timerDue cutoff fl then some (fireLong st fl)
    else if timerDue cutoff fs then some (fireShort st fs v)
    else none

/-- Fire every due timer (there are at most two, and firing never arms a
new one, so two passes suffice). -/
def fireDue (st : SearchSim) (cutoff : Option Nat) : SearchSim :=
  match fireOne st cutoff with
  | none => st
  | some st1 =>
    match fireOne st1 cutoff with
    | none => st1
    | some st2 => st2

/-- Run the simulation over a time-ordered input event list, firing due
timers before each input and draining the remaining timers at the end. -/
def simRun (debounce throttle : Nat) (st : SearchSim) :
    List (Nat × Option String) → SearchSim
  | [] => fireDue st none
  | (t, v) :: es =>
    simRun debounce throttle (procInput debounce throttle (fireDue st (some t)) t v) es

/-- Initial simulator state for a signal created over an input currently
holding `v0`. -/
def initSearchSim (v0 : Option String) : SearchSim :=
  ⟨v0, v0, none, none, 0, []⟩

/-- Collapse a commit log to the committed *changes*: entries equal to the
value already held are invisible to downstream consumers. -/
def commitChanges (q0 : Option String) : List (Nat × Option String) → List (Nat × Option String)
  | [] => []
  | (t, v) :: rest => if v = q0 then commitChanges q0 rest else (t, v) :: commitChanges v rest

/-! ## Tree data model (tree-data.ts)

`BaseTreeFolder`/`BaseTreeItem` carry the record identity and the
structural link; the record payload plays no role in any verified property
and is represented by the identity alone. -/

structure BaseFolder where
  id : String
  parentId : Option String
deriving DecidableEq

structure BaseItem where
  id : String
  folderId : String
deriving DecidableEq

/-- The metadata `populateDeepFolder` writes into a visited folder object:
its ancestor path (as folder identities) and the two rollup counts. -/
structure FolderMeta where
  path : List String
  folderCount : Nat
  itemCount : Nat
deriving DecidableEq

/-- The per-folder write store of the rollup traversal: the source mutates
the folder objects in place, keyed here by folder identity. -/
abbrev FolderSt := String → Option FolderMeta

def updSt (st : FolderSt) (k : String) (m : FolderMeta) : FolderSt :=
  fun x => if x = k then some m else st x

/-- The item bucket of a folder: `arrToLookup(items, x => x.folderId)`
keeps the original item order within each bucket. -/
def directItemIds (I : List BaseItem) (fid : String) : List String :=
  (I.filter fun it => it.folderId == fid).map (·.id)

/-- The sub-folder bucket of a folder:
`arrToLookup(folders, x => x.parentId).get(folder.model.id)`. -/
def subIds (F : List BaseFolder) (fid : String) : List String :=
  (F.filter fun g => g.parentId == some fid).map (·.id)

/-- The root bucket: folders without a parent link.  The library's
`arrToLookup` coalesces an absent key into the single root bucket that
`nestData` fetches (its signature rewrites an `undefined` key type to
`null`), so `folderLookup.get(null)` is the bucket of folders whose
parent selector returned no identity. -/
def rootIds (F : List BaseFolder) : List String :=
  (F.filter fun g => g.parentId == none).map (·.id)

/-- `populateDeepFolder`, fueled.  The worklist is a list of sibling folder
identities, all visited against the same `path`; visiting a folder first
recurses into its sub-folder bucket with the extended path, then writes
`path` and the rolled-up counts into the folder and moves to the next
sibling.  Fuel is consumed on every visit, so `none` for every fuel is
exactly the source recursion failing to terminate. -/
def popDeepAux (F : List BaseFolder) (I : List BaseItem) :
    Nat → List String → List String → FolderSt → Option (FolderSt × Nat × Nat)
  | _, [], _, st => some (st, 0, 0)
  | 0, _ :: _, _, _ => none
  | n + 1, fid :: rest, path, st =>
    match popDeepAux F I n (subIds F fid) (path ++ [fid]) st with
    | none => none
    | some (st1, fc, ic) =>
      let fcf := (subIds F fid).length + fc
      let icf := (directItemIds I fid).length + ic
      match popDeepAux F I n rest path (updSt st1 fid ⟨path, fcf, icf⟩) with
      | none => none
      | some (st3, fcr, icr) => some (st3, fcf + fcr, icf + icr)

/-- The complete rollup pass of `nestData`: run `populateDeepFolder` over
every root folder with the empty path, starting from untouched folder
objects. -/
def nestState (F : List BaseFolder) (I : List BaseItem) (fuel : Nat) :
    Option FolderSt :=
  (popDeepAux F I fuel (rootIds F) [] fun _ => none).map (·.1)

/-- Read the rollup metadata the traversal left on one folder. -/
def getMeta (F : List BaseFolder) (I : List BaseItem) (fuel : Nat)
    (fid : String) : Option FolderMeta :=
  (nestState F I fuel).bind fun st => st fid

/-- A folder of `nestData`'s output: the base fields plus the attached item
bucket, sub-folder bucket, rollup counts and path. -/
structure TreeFolderOut where
  id : String
  parentId : Option String
  itemIds : List String
  folderIds : List String
  itemCount : Nat
  folderCount : Nat
  path : List String
deriving DecidableEq

/-- `TreeDataSource.nestData`, fueled.  Empty folder input returns the
empty snapshot; step 2 attaches each folder's item bucket and defaults;
without a parent-link configuration that is the whole result; otherwise
the sub-folder buckets are attached and the rollup traversal runs from the
roots, its writes overriding the defaults of every visited folder. -/
def nestData (hasParentCfg : Bool) (F : List BaseFolder) (I : List BaseItem)
    (fuel : Nat) : Option (List TreeFolderOut) :=
  if F.isEmpty then some [] else
  if !hasParentCfg then
    some (F.map fun f =>
      ⟨f.id, f.parentId, directItemIds I f.id, [],
        (directItemIds I f.id).length, 0, []⟩)
  else
    match nestState F I fuel with
    | none => none
    | some st =>
      some (F.map fun f =>
        match st f.id with
        | none =>
          ⟨f.id, f.parentId, directItemIds I f.id, subIds F f.id,
            (directItemIds I f.id).length, 0, []⟩
        | some m =>
          ⟨f.id, f.parentId, directItemIds I f.id, subIds F f.id,
            m.itemCount, m.folderCount, m.path⟩)

/-! ## Tri-state selection engine (tree-range.ts, tree-selection.ts) -/

inductive SelState where
  | sNone : SelState
  | sSome : SelState
  | sAll : SelState
deriving DecidableEq

/-- Loop of `TreeItemRange.getFolderItemState` (tree-range.ts) over the
items after the first: the running state never changes, the loop either
short-circuits or falls through.  Note the source returns `'all'` — not
`'some'` — when it meets an unselected item while the state is `'all'`. -/
def rangeItemStateGo (sel : Finset String) (st : SelState) :
    List String → SelState
  | [] => st
  | i :: is =>
    if i ∈ sel then
      if st = SelState.sNone then SelState.sSome else rangeItemStateGo sel st is
    else
      if st = SelState.sAll then SelState.sAll else rangeItemStateGo sel st is

/-- `TreeItemRange.getFolderItemState`: `'none'` for an empty item list,
otherwise seeded from the first item's membership. -/
def rangeItemState (itemIds : List String) (sel : Finset String) : SelState :=
  match itemIds with
  | [] => SelState.sNone
  | first :: rest =>
    rangeItemStateGo sel (if first ∈ sel then SelState.sAll else SelState.sNone) rest

/-- Loop of `TreeRange.getFolderItemState` (tree-selection.ts), the older
single-pass implementation, which yields `'some'` on either kind of
mismatch. -/
def selectionItemStateGo (sel : Finset String) (st : SelState) :
    List String → SelState
  | [] => st
  | i :: is =>
    if i ∈ sel then
      if st = SelState.sNone then SelState.sSome else selectionItemStateGo sel st is
    else
      if st = SelState.sAll then SelState.sSome else selectionItemStateGo sel st is

/-- `TreeRange.getFolderItemState` (tree-selection.ts): `undefined` for an
empty item list. -/
def selectionItemState (itemIds : List String) (sel : Finset String) :
    Option SelState :=
  match itemIds with
  | [] => none
  | first :: rest =>
    some (selectionItemStateGo sel
      (if first ∈ sel then SelState.sAll else SelState.sNone) rest)

/-- Look a folder up in the built snapshot
(`metaFolderLookup.get(folderId)`; folder identities are unique in the
data model, so first match and the map's last-write-wins agree). -/
def findFolderOut (built : List TreeFolderOut) (fid : String) :
    Option TreeFolderOut :=
  built.find? fun f => f.id == fid

/-- `TreeItemRange.getMetaFolderState` (deep variant), fueled with the
sum-typed worklist pattern: `inl fid` is a call on one folder, `inr (cs,
st)` is the sub-folder loop with its accumulated state.  The source passes
its own `parentState` argument — not the accumulated state — to every
recursive call, so `parentState` is a fixed parameter here.  The TS
function's declared `undefined` result is unreachable (the item state is
always a value and the accumulator starts from it), so `none` is reserved
for fuel exhaustion or a dangling folder reference. -/
def rmsAux (built : List TreeFolderOut) (sel : Finset String)
    (parentState : Option SelState) :
    Nat → String ⊕ (List String × SelState) → Option SelState
  | 0, _ => none
  | n + 1, Sum.inl fid =>
    match findFolderOut built fid with
    | none => none
    | some f =>
      let itemState := rangeItemState f.itemIds sel
      if itemState = SelState.sSome then some SelState.sSome
      else
        match parentState with
        | none => rmsAux built sel parentState n (Sum.inr (f.folderIds, itemState))
        | some p =>
          if itemState ≠ p then some SelState.sSome
          else rmsAux built sel parentState n (Sum.inr (f.folderIds, p))
  | _ + 1, Sum.inr ([], st) => some st
  | n + 1, Sum.inr (c :: cs, st) =>
    match rmsAux built sel parentState n (Sum.inl c) with
    | none => none
    | some sub =>
      if sub = SelState.sSome then some SelState.sSome
      else if sub ≠ st then some SelState.sSome
      else rmsAux built sel parentState n (Sum.inr (cs, st))

/-- `TreeItemRange.getMetaFolderState` including its `shallow` mode, which
returns the folder's plain item state without recursion. -/
def getMetaFolderState (built : List TreeFolderOut) (sel : Finset String)
    (parentState : Option SelState) (shallow : Bool) (fid : String)
    (fuel : Nat) : Option SelState :=
  if shallow then
    (findFolderOut built fid).map fun f => rangeItemState f.itemIds sel
  else rmsAux built sel parentState fuel (Sum.inl fid)

/-- `TreeItemRange.getFolderItems`: depth-first enumeration of every item
identity in a folder's subtree (the folder's own bucket first, then each
sub-folder's subtree in order), fueled over a sibling worklist. -/
def subtreeItemIds (built : List TreeFolderOut) :
    Nat → List String → Option (List String)
  | _, [] => some []
  | 0, _ :: _ => none
  | n + 1, fid :: rest =>
    match findFolderOut built fid with
    | none => none
    | some f =>
      match subtreeItemIds built n f.folderIds with
      | none => none
      | some deep =>
        match subtreeItemIds built n rest with
        | none => none
        | some more => some (f.itemIds ++ (deep ++ more))

/-- Modelled from the spec: `SignalSet.addRange` of the external signal
toolkit, per `toggleFolder`'s documented contract — add the ids to the set,
report `true` when the set changed and `undefined` (here `none`) when
nothing changed. -/
def addRange (sel : Finset String) (ids : List String) :
    Option Bool × Finset String :=
  if ids.toFinset ⊆ sel then (none, sel) else (some true, sel ∪ ids.toFinset)

/-- Modelled from the spec: `SignalSet.deleteRange`, reporting `false` when
ids were removed and `undefined` (here `none`) when nothing changed. -/
def deleteRange (sel : Finset String) (ids : List String) :
    Option Bool × Finset String :=
  if sel ∩ ids.toFinset = ∅ then (none, sel) else (some false, sel \ ids.toFinset)

/-- `TreeItemRange.toggleFolder`: resolve the reference, bail out (with the
selection untouched) on a dangling reference or a zero `itemCount`,
enumerate the direct or deep item ids, then apply the forced state, or
read the current tri-state and toggle away from `'all'`. -/
def toggleFolderM (built : List TreeFolderOut) (sel : Finset String)
    (folderRef : String) (forced : Option Bool) (shallow : Bool)
    (fuel : Nat) : Option (Option Bool × Finset String) :=
  match findFolderOut built folderRef with
  | none => some (none, sel)
  | some f =>
    if f.itemCount ≤ 0 then some (none, sel)
    else
      match (if shallow then some f.itemIds else subtreeItemIds built fuel [folderRef]) with
      | none => none
      | some allItemIds =>
        match forced with
        | some false => some (deleteRange sel allItemIds)
        | some true => some (addRange sel allItemIds)
        | none =>
          match getMetaFolderState built sel none shallow folderRef fuel with
          | none => none
          | some s =>
            if s = SelState.sAll then some (deleteRange sel allItemIds)
            else some (addRange sel allItemIds)

/-! ### Bulk precomputation (tree-range.ts, `shallowFolderStates` /
`folderStates` / `storeLookupFolderState` / `getLookupFolderState`) -/

/-- `shallowFolderStates` as a keyed read: with a non-empty selection, each
folder identity occurring among the base items maps to the item state of
its bucket; everything else (and the whole map, when the selection is
empty) is absent. -/
def shallowStates (I : List BaseItem) (sel : Finset String) :
    String → Option SelState :=
  fun fid =>
    if sel = ∅ then none
    else
      match directItemIds I fid with
      | [] => none
      | l => some (rangeItemState l sel)

def setMemo (memo : String → Option SelState) (k : String)
    (v : Option SelState) : String → Option SelState :=
  fun x => if x = k then v else memo x

/-- The sub-folder bucket as folder records
(`folderLookup.get(folder.model.id)` over the base folders). -/
def childFolders (F : List BaseFolder) (fid : String) : List BaseFolder :=
  F.filter fun g => g.parentId == some fid

/-- Outcome of `getLookupFolderState`'s sub-folder loop: an early
`'some'` return, or the accumulated state at the end of the loop. -/
inductive BulkRes where
  | early : BulkRes
  | acc : Option SelState → BulkRes
deriving DecidableEq

/-- `storeLookupFolderState`/`getLookupFolderState`, fueled over a sibling
worklist threaded through the memo map.  Each worklist entry is memoized
on a truthy hit, otherwise computed: an item state of `'some'`
short-circuits, else the sub-folder loop combines the children's stored
states onto the item state; the computed state is stored (a stored
`undefined` being indistinguishable from an absent key) and combined into
the caller's accumulator with the same rule. -/
def bulkGo (F : List BaseFolder) (itemStates : String → Option SelState) :
    Nat → List BaseFolder → Option SelState → (String → Option SelState) →
    Option ((String → Option SelState) × BulkRes)
  | _, [], acc, memo => some (memo, BulkRes.acc acc)
  | 0, _ :: _, _, _ => none
  | n + 1, f :: rest, acc, memo =>
    let stepRes : Option ((String → Option SelState) × Option SelState) :=
      match memo f.id with
      | some s => some (memo, some s)
      | none =>
        let itemState := itemStates f.id
        if itemState = some SelState.sSome then
          some (setMemo memo f.id (some SelState.sSome), some SelState.sSome)
        else
          match bulkGo F itemStates n (childFolders F f.id) itemState memo with
          | none => none
          | some (memo1, BulkRes.early) =>
            some (setMemo memo1 f.id (some SelState.sSome), some SelState.sSome)
          | some (memo1, BulkRes.acc st) => some (setMemo memo1 f.id st, st)
    match stepRes with
    | none => none
    | some (memo2, subState) =>
      match subState with
      | none => bulkGo F itemStates n rest acc memo2
      | some s =>
        if s = SelState.sSome then some (memo2, BulkRes.early)
        else
          match acc with
          | none => bulkGo F itemStates n rest (some s) memo2
          | some a =>
            if s ≠ a then some (memo2, BulkRes.early)
            else bulkGo F itemStates n rest acc memo2

/-- The `folderStates` pass: `storeLookupFolderState` for every base
folder in order, keeping only the memo map. -/
def bulkAll (F : List BaseFolder) (itemStates : String → Option SelState) :
    Nat → List BaseFolder → (String → Option SelState) →
    Option (String → Option SelState)
  | _, [], memo => some memo
  | 0, _ :: _, _ => none
  | n + 1, f :: rest, memo =>
    match bulkGo F itemStates n [f] none memo with
    | none => none
    | some (memo1, _) => bulkAll F itemStates n rest memo1

/-- The `folderStates` computed map: empty when the shallow map is empty
(selection empty, or no items at all), else the full bottom-up pass. -/
def folderStatesMap (F : List BaseFolder) (I : List BaseItem)
    (sel : Finset String) (fuel : Nat) : Option (String → Option SelState) :=
  if sel = ∅ ∨ I = [] then some fun _ => none
  else bulkAll F (shallowStates I sel) fuel F fun _ => none

/-- `getFolderState` for a folder identity (deep): the bulk map's entry,
defaulted to `'none'`. -/
def bulkFolderState (F : List BaseFolder) (I : List BaseItem)
    (sel : Finset String) (fuel : Nat) (fid : String) : Option SelState :=
  (folderStatesMap F I sel fuel).map fun memo => (memo fid).getD SelState.sNone

/-- `getFolderState` for an already-resolved meta folder: `'none'` for an
empty selection, else the recursive point query (whose `?? 'none'`
fallback is unreachable, see `rmsAux`). -/
def pointFolderState (built : List TreeFolderOut) (sel : Finset String)
    (shallow : Bool) (fid : String) (fuel : Nat) : Option SelState :=
  if sel = ∅ then some SelState.sNone
  else getMetaFolderState built sel none shallow fid fuel

/-! ### Parent chains, for reasoning about the rollup traversal -/

/-- The parent link of the folder with a given identity (unique under the
data model's identity-uniqueness invariant). -/
def upF (F : List BaseFolder) (x : String) : Option String :=
  (F.find? fun f => f.id == x).bind (·.parentId)

/-- Iterated parent links: `upIter F k x = some y` says the parent chain
climbs from `x` to `y` in exactly `k` steps. -/
def upIter (F : List BaseFolder) : Nat → String → Option String
  | 0, x => some x
  | k + 1, x => (upF F x).bind (upIter F k)

/-- The rollup recurrence at one folder of the traversal's write store:
the folder has an entry whose counts are its direct buckets plus the sum
of its sub-folders' stored rollups, and every sub-folder's stored path
extends the folder's own path by the folder itself. -/
def RollupOk (F : List BaseFolder) (I : List BaseItem) (st : FolderSt)
    (x : String) : Prop :=
  ∃ m, st x = some m ∧
    ∃ ms : List FolderMeta, (subIds F x).map st = ms.map some ∧
      m.folderCount = (subIds F x).length + (ms.map (·.folderCount)).sum ∧
      m.itemCount = (directItemIds I x).length + (ms.map (·.itemCount)).sum ∧
      ∀ mg ∈ ms, mg.path = m.path ++ [x]

/-! # Lemmas and claim theorems -/

/-! ## Pagination -/

/-- C4 — Pagination clamp: after a filter recompute, a page index pointing
past the end of a non-empty filtered list is clamped to
`⌊(length−1)/size⌋`, which is never negative; a page still pointing at a
non-empty slice, or any page over an empty list, is left untouched; in all
cases the page is either unchanged or non-negative. -/
theorem c4_pagination_clamp (len : Nat) (p : Pagination) (hsz : 0 < p.pageSize) :
    (len ≠ 0 → (len : Int) ≤ p.page * p.pageSize →
      (updatePage len p).page = Int.fdiv ((len : Int) - 1) p.pageSize ∧
        0 ≤ (updatePage len p).page) ∧
    ((len : Int) > p.page * p.pageSize → updatePage len p = p) ∧
    (len = 0 → updatePage len p = p) ∧
    ((updatePage len p).page = p.page ∨ 0 ≤ (updatePage len p).page) := by
  unfold updatePage
  by_cases hc : len = 0 ∨ (len : Int) > p.page * p.pageSize
  · refine ⟨fun h1 h2 => ?_, fun _ => by rw [if_pos hc], fun _ => by rw [if_pos hc], ?_⟩
    · rcases hc with h0 | hgt
      · exact absurd h0 h1
      · exact absurd h2 (not_le.mpr hgt)
    · left; rw [if_pos hc]
  · have hlen : len ≠ 0 := fun h => hc (Or.inl h)
    have hfd : 0 ≤ Int.fdiv ((len : Int) - 1) p.pageSize := by
      apply Int.fdiv_nonneg
      · have : (1 : Int) ≤ (len : Int) := by exact_mod_cast Nat.one_le_iff_ne_zero.mpr hlen
        omega
      · omega
    refine ⟨fun _ _ => ?_, fun h => absurd (Or.inr h) hc, fun h => absurd (Or.inl h) hc, ?_⟩
    · rw [if_neg hc]; exact ⟨rfl, hfd⟩
    · right; rw [if_neg hc]; exact hfd

/-- C4 witness: with page size 10, a page index of 2 over 15 remaining
items clamps to 1, and page 0 over 5 items stays put. -/
theorem c4_pagination_clamp_witness :
    (updatePage 15 ⟨2, 10⟩).page = 1 ∧ updatePage 5 ⟨0, 10⟩ = ⟨0, 10⟩ := by
  have h1 := (c4_pagination_clamp 15 ⟨2, 10⟩ (by decide)).1 (by decide) (by decide)
  have h2 := (c4_pagination_clamp 5 ⟨0, 10⟩ (by decide)).2.1 (by decide)
  exact ⟨h1.1.trans (by decide), h2⟩

/-! ## Filtering -/

/-- C7 — Filter no-op identity: a single configured filter whose
`isActive` check is false leaves the input array object itself unchanged
(identity of the reference, not merely of the contents). -/
theorem c7_inactive_filter_identity (f : DataFilter σ α) (state : σ)
    (list : ArrRef α) (h : f.isActive state = false) :
    filterServiceFilter [f] state list = list := by
  simp [filterServiceFilter, DataFilter.filter, h]

/-- C7 witness: an inactive filter that would renumber the array if run
leaves the tagged array `⟨7, [1, 2, 3]⟩` identical. -/
theorem c7_inactive_filter_identity_witness :
    filterServiceFilter [⟨fun _ => false, fun _ a => ⟨a.refId + 1, []⟩⟩] 0
      (⟨7, [1, 2, 3]⟩ : ArrRef Nat) = ⟨7, [1, 2, 3]⟩ :=
  c7_inactive_filter_identity _ 0 _ rfl

/-! ## Search front-end -/

lemma mapIdx_pair_fst (l : List α) :
    (l.mapIdx fun (i : ℕ) (v : α) => (v, (i : ℚ))).map Prod.fst = l := by
  rw [List.mapIdx_eq_enum_map, List.map_map]
  have h : (Prod.fst ∘ Function.uncurry fun (i : ℕ) (v : α) => (v, (i : ℚ))) =
      (Prod.snd : ℕ × α → α) := by
    funext p; cases p; rfl
  rw [h, List.enum_map_snd]

lemma mapIdx_pair_snd (l : List α) :
    (l.mapIdx fun (i : ℕ) (v : α) => (v, (i : ℚ))).map Prod.snd =
      (List.range l.length).map (fun i : ℕ => (i : ℚ)) := by
  rw [List.mapIdx_eq_enum_map, List.map_map]
  have h : (Prod.snd ∘ Function.uncurry fun (i : ℕ) (v : α) => (v, (i : ℚ))) =
      ((fun i : ℕ => (i : ℚ)) ∘ (Prod.fst : ℕ × α → ℕ)) := by
    funext p; cases p; rfl
  rw [h, ← List.map_map, List.enum_map_fst]

/-- C9 counterexample: with a two-record collection and a result limit of
one, an empty query returns a single record, not all records — the claim's
"returns all records" fails as stated. -/
theorem c9_empty_query_counterexample :
    (fuseSearch (fun _ _ => ([] : List (String × Option ℚ))) ["a", "b"] none 1).map
        Prod.fst = ["a"] ∧
    ["a"] ≠ ["a", "b"] := by
  constructor
  · decide
  · decide

/-- C9 (amended) — Empty-query search result: an empty or undefined query
returns the first `limit` records of the collection in original order,
with the synthetic strictly ascending scores `0, 1, 2, …` (their indices);
when the collection does not exceed the limit this is the whole
collection. -/
theorem c9_empty_query_truncation (matcher : String → Nat → List (α × Option ℚ))
    (collection : List α) (q : Option String) (limit : Nat)
    (hq : emptyQuery q = true) :
    (fuseSearch matcher collection q limit).map Prod.fst = collection.take limit ∧
    (fuseSearch matcher collection q limit).map Prod.snd =
      (List.range (min limit collection.length)).map (fun i : ℕ => (i : ℚ)) ∧
    (collection.length ≤ limit →
      (fuseSearch matcher collection q limit).map Prod.fst = collection) := by
  have hred : fuseSearch matcher collection q limit =
      (collection.mapIdx fun (i : ℕ) (v : α) => (v, (i : ℚ))).take limit := by
    match q with
    | none => rfl
    | some s =>
      have hs : s = "" := by simpa [emptyQuery] using hq
      subst hs; rfl
  rw [hred]
  refine ⟨?_, ?_, fun hle => ?_⟩
  · rw [List.map_take, mapIdx_pair_fst]
  · rw [List.map_take, mapIdx_pair_snd, ← List.map_take, List.take_range]
  · rw [List.map_take, mapIdx_pair_fst, List.take_of_length_le hle]

/-- C9 witness: the amended statement at a concrete empty query — the
no-query search over three records with limit 2 yields the first two
records. -/
theorem c9_empty_query_truncation_witness :
    emptyQuery (none : Option String) = true ∧
    (fuseSearch (fun _ _ => ([] : List (String × Option ℚ))) ["a", "b", "c"]
        none 2).map Prod.fst = ["a", "b"] := by
  have h := c9_empty_query_truncation (fun _ _ => ([] : List (String × Option ℚ)))
    ["a", "b", "c"] none 2 rfl
  exact ⟨rfl, h.1.trans (by decide)⟩

/-! ## Search-query rate shaping -/

/-- C5 — Search-query rate shaping: clearing the query to undefined or to
the empty string, from any state and at any time, commits at that very
time and cancels both timers; and the canonical burst — three keystrokes
50 ms apart with debounce 300 ms and throttle 1000 ms — produces exactly
one committed query change, 300 ms after the last keystroke, equal to the
last typed value. -/
theorem c5_search_rate_shaping :
    (∀ (d th : Nat) (st : SearchSim) (t : Nat),
      procInput d th st t none =
        { st with query := none, shortT := none, longT := none,
                  commits := st.commits ++ [(t, none)] } ∧
      procInput d th st t (some "") =
        { st with query := some "", shortT := none, longT := none,
                  commits := st.commits ++ [(t, some "")] }) ∧
    commitChanges (some "") (simRun 300 1000 (initSearchSim (some ""))
        [(0, some ""), (100, some "a"), (150, some "ab"), (200, some "abc")]).commits =
      [(500, some "abc")] := by
  refine ⟨fun d th st t => ⟨rfl, rfl⟩, by decide⟩

/-! ## Tri-state item combine -/

/-- C2 — the item-state computation of the current `TreeItemRange`
(tree-range.ts), used by both its point query and its bulk shallow pass,
returns `'all'` for the proper subset `{I1}` of the two-item folder
`[I1, I2]`, where the specified combine yields `'some'`; the sibling
implementation in tree-selection.ts returns `'some'` on the same input. -/
theorem c2_item_state_eval :
    rangeItemState ["I1", "I2"] {"I1"} = SelState.sAll ∧
    rangeItemState ["I1", "I2"] {"I1"} ≠ SelState.sSome ∧
    selectionItemState ["I1", "I2"] {"I1"} = some SelState.sSome := by
  refine ⟨by decide, by decide, by decide⟩

/-! ## Bulk versus point query -/

/-- C3 — over the snapshot with root folder `F1` (no direct items) holding
sub-folder `F2` with single item `I1`, and selection `{I1}`, the bulk
precomputed map reports `F1` as `'all'` while the recursive point query on
the built tree reports `'some'`: the two access paths disagree, refuting
the claimed equivalence. -/
theorem c3_bulk_point_divergence :
    bulkFolderState [⟨"F1", none⟩, ⟨"F2", some "F1"⟩] [⟨"I1", "F2"⟩] {"I1"} 10 "F1" =
      some SelState.sAll ∧
    (nestData true [⟨"F1", none⟩, ⟨"F2", some "F1"⟩] [⟨"I1", "F2"⟩] 10).bind
      (fun built => pointFolderState built {"I1"} false "F1" 10) =
      some SelState.sSome ∧
    SelState.sAll ≠ SelState.sSome := by
  refine ⟨by decide, by decide, by decide⟩

/-! ## Snapshot integrity -/

lemma mem_directItemIds (I : List BaseItem) (fid iid : String) :
    iid ∈ directItemIds I fid ↔ ∃ it ∈ I, it.folderId = fid ∧ it.id = iid := by
  simp only [directItemIds, List.mem_map, List.mem_filter, beq_iff_eq]
  constructor
  · rintro ⟨it, ⟨hmem, hfid⟩, hid⟩
    exact ⟨it, hmem, hfid, hid⟩
  · rintro ⟨it, hmem, hfid, hid⟩
    exact ⟨it, ⟨hmem, hfid⟩, hid⟩

/-- Every folder record of a `nestData` snapshot stems from an input
folder, carries its identity, and carries exactly that folder's item
bucket (the rollup pass rewrites only counts and path). -/
lemma nestData_shape (hp : Bool) (F : List BaseFolder) (I : List BaseItem)
    (fuel : Nat) (outs : List TreeFolderOut)
    (hn : nestData hp F I fuel = some outs) :
    ∀ o ∈ outs, ∃ f ∈ F, o.id = f.id ∧ o.itemIds = directItemIds I f.id := by
  intro o ho
  unfold nestData at hn
  by_cases hF : F.isEmpty
  · rw [if_pos hF] at hn
    obtain rfl : ([] : List TreeFolderOut) = outs := Option.some.inj hn
    simp at ho
  · rw [if_neg hF] at hn
    by_cases hpc : !hp
    · rw [if_pos hpc] at hn
      obtain rfl := Option.some.inj hn
      obtain ⟨f, hf, rfl⟩ := List.mem_map.mp ho
      exact ⟨f, hf, rfl, rfl⟩
    · rw [if_neg hpc] at hn
      cases hst : nestState F I fuel with
      | none => rw [hst] at hn; exact absurd hn (by simp)
      | some st =>
        rw [hst] at hn
        obtain rfl := Option.some.inj hn
        obtain ⟨f, hf, rfl⟩ := List.mem_map.mp ho
        cases st f.id <;> exact ⟨f, hf, rfl, rfl⟩

/-- C6 — Invariant I1: in every built snapshot, every item attached to a
folder's item bucket is an input item whose `folderId` is exactly that
folder's identity (so the reference resolves, to the very folder holding
it); and an item whose `folderId` matches no input folder is silently
dropped from the nested view — it appears in no folder's bucket.  The
builder is total apart from fuel: no error is ever raised. -/
theorem c6_item_folder_resolution (hp : Bool) (F : List BaseFolder)
    (I : List BaseItem) (fuel : Nat) (outs : List TreeFolderOut)
    (hn : nestData hp F I fuel = some outs) :
    (∀ o ∈ outs, ∀ iid ∈ o.itemIds,
      ∃ it ∈ I, it.id = iid ∧ it.folderId = o.id) ∧
    ((I.map (·.id)).Nodup →
      ∀ it ∈ I, (∀ f ∈ F, f.id ≠ it.folderId) →
        ∀ o ∈ outs, it.id ∉ o.itemIds) := by
  constructor
  · intro o ho iid hiid
    obtain ⟨f, _, hid, hbucket⟩ := nestData_shape hp F I fuel outs hn o ho
    rw [hbucket] at hiid
    obtain ⟨it, hmem, hfid, hit⟩ := (mem_directItemIds I f.id iid).mp hiid
    exact ⟨it, hmem, hit, by rw [hfid, hid]⟩
  · intro hnd it hit hmiss o ho hin
    obtain ⟨f, hf, _, hbucket⟩ := nestData_shape hp F I fuel outs hn o ho
    rw [hbucket] at hin
    obtain ⟨it2, hmem2, hfid2, hid2⟩ := (mem_directItemIds I f.id it.id).mp hin
    have : it2 = it := by
      have hinj := List.inj_on_of_nodup_map hnd
      exact hinj hmem2 hit hid2
    subst this
    exact hmiss f hf hfid2.symm

/-- C6 witness: in the snapshot of one folder `F1` with item `I1` and an
orphan item `IX` referencing the missing folder `GHOST`, the orphan
appears in no folder's bucket. -/
theorem c6_item_folder_resolution_witness :
    "IX" ∉ (⟨"F1", none, ["I1"], [], 1, 0, []⟩ : TreeFolderOut).itemIds := by
  have h := c6_item_folder_resolution true [⟨"F1", none⟩]
    [⟨"I1", "F1"⟩, ⟨"IX", "GHOST"⟩] 3 [⟨"F1", none, ["I1"], [], 1, 0, []⟩]
    (by decide)
  exact h.2 (by decide) ⟨"IX", "GHOST"⟩ (by decide) (by decide) _ (by decide)

/-! ## Folder toggling -/

lemma addRange_nil (sel : Finset String) : addRange sel [] = (none, sel) := by
  simp [addRange]

lemma deleteRange_nil (sel : Finset String) : deleteRange sel [] = (none, sel) := by
  simp [deleteRange]

/-- C10 — `toggleFolder` no-op cases: whenever the toggle terminates, a
folder reference that does not resolve in the snapshot, or a resolved
folder whose subtree enumerates no items, yields the `undefined` result
and leaves the selection set untouched — for every selection set, forced
state and shallow flag. -/
theorem c10_toggle_folder_noop (built : List TreeFolderOut) (sel : Finset String)
    (ref : String) (forced : Option Bool) (shallow : Bool) (fuel : Nat)
    (r : Option Bool × Finset String)
    (hr : toggleFolderM built sel ref forced shallow fuel = some r)
    (hcond : findFolderOut built ref = none ∨
      subtreeItemIds built fuel [ref] = some []) :
    r = (none, sel) := by
  cases hf : findFolderOut built ref with
  | none =>
    unfold toggleFolderM at hr
    rw [hf] at hr
    exact (Option.some.inj hr).symm
  | some f =>
    rcases hcond with hmiss | hempty
    · rw [hf] at hmiss; exact absurd hmiss (by simp)
    · have hnil : subtreeItemIds built (fuel - 1) [] = some [] := by
        cases h : fuel - 1 <;> rfl
      have hitems : f.itemIds = [] := by
        cases fuel with
        | zero => simp [subtreeItemIds] at hempty
        | succ n =>
          unfold subtreeItemIds at hempty
          simp only [hf] at hempty
          cases hdeep : subtreeItemIds built n f.folderIds with
          | none =>
            simp only [hdeep] at hempty
            exact absurd hempty (by simp)
          | some deep =>
            have hnil2 : subtreeItemIds built n [] = some [] := by
              cases n <;> rfl
            simp only [hdeep, hnil2] at hempty
            exact (List.append_eq_nil.mp (Option.some.inj hempty)).1
      unfold toggleFolderM at hr
      simp only [hf] at hr
      by_cases hic : f.itemCount ≤ 0
      · rw [if_pos hic] at hr
        exact (Option.some.inj hr).symm
      · rw [if_neg hic] at hr
        have hids : (if shallow = true then some f.itemIds
            else subtreeItemIds built fuel [ref]) = some [] := by
          cases shallow with
          | true => simp [hitems]
          | false => simpa using hempty
        simp only [hids] at hr
        cases forced with
        | some b =>
          cases b with
          | false =>
            rw [deleteRange_nil] at hr
            exact (Option.some.inj hr).symm
          | true =>
            rw [addRange_nil] at hr
            exact (Option.some.inj hr).symm
        | none =>
          cases hms : getMetaFolderState built sel none shallow ref fuel with
          | none =>
            simp only [hms] at hr
            exact absurd hr (by simp)
          | some s =>
            simp only [hms] at hr
            by_cases hsa : s = SelState.sAll
            · rw [if_pos hsa, deleteRange_nil] at hr
              exact (Option.some.inj hr).symm
            · rw [if_neg hsa, addRange_nil] at hr
              exact (Option.some.inj hr).symm

/-- C10 witness: toggling the folder `E` — which exists, has a sub-folder
and zero items anywhere below — over the selection `{Z}` reports
`undefined` and leaves the selection unchanged. -/
theorem c10_toggle_folder_noop_witness :
    toggleFolderM
        [⟨"E", none, [], ["E2"], 0, 1, []⟩, ⟨"E2", some "E", [], [], 0, 0, ["E"]⟩]
        {"Z"} "E" none false 10 = some (none, {"Z"}) := by
  obtain ⟨r, hr⟩ : ∃ r, toggleFolderM
      [⟨"E", none, [], ["E2"], 0, 1, []⟩, ⟨"E2", some "E", [], [], 0, 0, ["E"]⟩]
      {"Z"} "E" none false 10 = some r := ⟨(none, {"Z"}), by decide⟩
  rw [hr, c10_toggle_folder_noop _ _ _ _ _ _ r hr (Or.inr (by decide))]

/-! ## Cycles in the parent chain -/

lemma cyc_popDeep_none :
    ∀ n : Nat,
      (∀ (path : List String) (st : FolderSt),
        popDeepAux [⟨"x", none⟩, ⟨"y", some "x"⟩, ⟨"x", some "y"⟩] [] n
          ["x"] path st = none) ∧
      (∀ (path : List String) (st : FolderSt),
        popDeepAux [⟨"x", none⟩, ⟨"y", some "x"⟩, ⟨"x", some "y"⟩] [] n
          ["y"] path st = none) := by
  intro n
  induction n with
  | zero => exact ⟨fun _ _ => rfl, fun _ _ => rfl⟩
  | succ n ih =>
    have hsx : subIds [⟨"x", none⟩, ⟨"y", some "x"⟩, ⟨"x", some "y"⟩] "x" = ["y"] := by
      decide
    have hsy : subIds [⟨"x", none⟩, ⟨"y", some "x"⟩, ⟨"x", some "y"⟩] "y" = ["x"] := by
      decide
    constructor
    · intro path st
      simp only [popDeepAux, hsx, ih.2]
    · intro path st
      simp only [popDeepAux, hsy, ih.1]

/-- C8 — Cycle behaviour: the builder performs no cycle detection, and on
the folder input `x → y → x` (a parent-link cycle reachable from the root
`x`) the rollup traversal never completes — for every fuel the fueled
`populateDeepFolder` run fails, the fueled image of non-termination. -/
theorem c8_cycle_nontermination :
    ∀ fuel : Nat,
      nestState [⟨"x", none⟩, ⟨"y", some "x"⟩, ⟨"x", some "y"⟩] [] fuel = none := by
  intro fuel
  have hroot : rootIds [⟨"x", none⟩, ⟨"y", some "x"⟩, ⟨"x", some "y"⟩] = ["x"] := by
    decide
  unfold nestState
  rw [hroot, (cyc_popDeep_none fuel).1 [] (fun _ => none)]
  rfl

/-! ## The rollup traversal: structural lemmas -/

lemma popDeepAux_nil (F : List BaseFolder) (I : List BaseItem) (n : Nat)
    (path : List String) (st : FolderSt) :
    popDeepAux F I n [] path st = some (st, 0, 0) := by
  cases n <;> rfl

/-- Eliminate one successful visit: the children ran first from `st`, the
folder's entry was written, the remaining siblings ran, and the counts
add up. -/
lemma popDeep_cons_elim {F : List BaseFolder} {I : List BaseItem} {n : Nat}
    {fid : String} {rest path : List String} {st : FolderSt}
    {res : FolderSt × Nat × Nat}
    (h : popDeepAux F I (n + 1) (fid :: rest) path st = some res) :
    ∃ st1 fc1 ic1 rres,
      popDeepAux F I n (subIds F fid) (path ++ [fid]) st = some (st1, fc1, ic1) ∧
      popDeepAux F I n rest path
        (updSt st1 fid ⟨path, (subIds F fid).length + fc1,
          (directItemIds I fid).length + ic1⟩) = some rres ∧
      res = (rres.1, (subIds F fid).length + fc1 + rres.2.1,
        (directItemIds I fid).length + ic1 + rres.2.2) := by
  unfold popDeepAux at h
  cases h1 : popDeepAux F I n (subIds F fid) (path ++ [fid]) st with
  | none => rw [h1] at h; exact absurd h (by simp)
  | some t1 =>
    obtain ⟨st1, fc1, ic1⟩ := t1
    rw [h1] at h
    simp only [] at h
    cases h2 : popDeepAux F I n rest path
        (updSt st1 fid ⟨path, (subIds F fid).length + fc1,
          (directItemIds I fid).length + ic1⟩) with
    | none => rw [h2] at h; exact absurd h (by simp)
    | some rres =>
      rw [h2] at h
      simp only [] at h
      refine ⟨st1, fc1, ic1, rres, rfl, h2, ?_⟩
      obtain ⟨st3, fcr, icr⟩ := rres
      exact (Option.some.inj h).symm

lemma updSt_ne {st : FolderSt} {k x : String} (h : x ≠ k) (m : FolderMeta) :
    updSt st k m x = st x := by
  simp [updSt, h]

lemma updSt_self (st : FolderSt) (k : String) (m : FolderMeta) :
    updSt st k m k = some m := by
  simp [updSt]

/-! ### Parent-chain arithmetic -/

lemma upIter_one (F : List BaseFolder) (x : String) :
    upIter F 1 x = upF F x := by
  unfold upIter
  cases upF F x <;> rfl

lemma upIter_add (F : List BaseFolder) (a b : Nat) (x : String) :
    upIter F (a + b) x = (upIter F a x).bind (upIter F b) := by
  induction a generalizing x with
  | zero => simp [upIter]
  | succ a ih =>
    have : a + 1 + b = (a + b) + 1 := by omega
    rw [this]
    show (upF F x).bind (upIter F (a + b)) = ((upF F x).bind (upIter F a)).bind (upIter F b)
    cases upF F x with
    | none => rfl
    | some y => exact ih y

lemma upIter_succ_right (F : List BaseFolder) (k : Nat) (x : String) :
    upIter F (k + 1) x = (upIter F k x).bind (upF F) := by
  rw [upIter_add F k 1 x]
  cases upIter F k x with
  | none => rfl
  | some y => exact upIter_one F y

lemma upIter_snoc {F : List BaseFolder} {k : Nat} {x t : String}
    (h : upIter F (k + 1) x = some t) :
    ∃ z, upIter F k x = some z ∧ upF F z = some t := by
  rw [upIter_succ_right] at h
  exact Option.bind_eq_some.mp h

lemma upIter_snoc_intro {F : List BaseFolder} {k : Nat} {x z t : String}
    (h1 : upIter F k x = some z) (h2 : upF F z = some t) :
    upIter F (k + 1) x = some t := by
  rw [upIter_succ_right, h1]
  exact h2

/-! ### Folder identity uniqueness and bucket membership -/

lemma id_inj {F : List BaseFolder} (hnd : (F.map (·.id)).Nodup)
    {b b2 : BaseFolder} (hb : b ∈ F) (hb2 : b2 ∈ F) (h : b.id = b2.id) :
    b = b2 :=
  List.inj_on_of_nodup_map hnd hb hb2 h

lemma upF_of_mem_subIds {F : List BaseFolder}
    (hnd : (F.map (·.id)).Nodup) {g fid : String} (h : g ∈ subIds F fid) :
    upF F g = some fid := by
  simp only [subIds, List.mem_map, List.mem_filter, beq_iff_eq] at h
  obtain ⟨b, ⟨hb, hpar⟩, hid⟩ := h
  unfold upF
  cases hfind : F.find? fun f => f.id == g with
  | none =>
    have : ∃ x ∈ F, (fun f => f.id == g) x = true := ⟨b, hb, by simp [hid]⟩
    rw [← List.find?_isSome, hfind] at this
    simp at this
  | some b2 =>
    have hb2 : b2 ∈ F := List.mem_of_find?_eq_some hfind
    have hid2 : b2.id = g := by simpa using List.find?_some hfind
    have : b2 = b := id_inj hnd hb2 hb (by rw [hid2, hid])
    subst this
    simpa using hpar

lemma mem_subIds_of_upF {F : List BaseFolder} {g fid : String}
    (h : upF F g = some fid) : g ∈ subIds F fid := by
  unfold upF at h
  cases hfind : F.find? fun f => f.id == g with
  | none => rw [hfind] at h; exact absurd h (by simp)
  | some b =>
    rw [hfind] at h
    have hb : b ∈ F := List.mem_of_find?_eq_some hfind
    have hid : b.id = g := by simpa using List.find?_some hfind
    simp only [subIds, List.mem_map, List.mem_filter, beq_iff_eq]
    exact ⟨b, ⟨hb, by simpa using h⟩, hid⟩

lemma upF_of_mem_rootIds {F : List BaseFolder}
    (hnd : (F.map (·.id)).Nodup) {r : String} (h : r ∈ rootIds F) :
    upF F r = none := by
  simp only [rootIds, List.mem_map, List.mem_filter, beq_iff_eq] at h
  obtain ⟨b, ⟨hb, hpar⟩, hid⟩ := h
  unfold upF
  cases hfind : F.find? fun f => f.id == r with
  | none => rfl
  | some b2 =>
    have hb2 : b2 ∈ F := List.mem_of_find?_eq_some hfind
    have hid2 : b2.id = r := by simpa using List.find?_some hfind
    have : b2 = b := id_inj hnd hb2 hb (by rw [hid2, hid])
    subst this
    simpa using hpar

lemma subIds_nodup {F : List BaseFolder} (hnd : (F.map (·.id)).Nodup)
    (fid : String) : (subIds F fid).Nodup := by
  unfold subIds
  exact hnd.sublist ((List.filter_sublist F).map (·.id))

lemma rootIds_nodup {F : List BaseFolder} (hnd : (F.map (·.id)).Nodup) :
    (rootIds F).Nodup := by
  unfold rootIds
  exact hnd.sublist ((List.filter_sublist F).map (·.id))

/-- A successful run bounds every parent chain into a visited folder: the
traversal descends one level per fuel unit, so a chain of length `k` into
a worklist member needs more than `k` fuel. -/
lemma popDeep_depth_bound {F : List BaseFolder} {I : List BaseItem} :
    ∀ {n : Nat} {W path : List String} {st : FolderSt}
      {res : FolderSt × Nat × Nat},
      popDeepAux F I n W path st = some res →
      ∀ fid ∈ W, ∀ k y, upIter F k y = some fid → k < n := by
  intro n
  induction n with
  | zero =>
    intro W path st res h fid hfid k y _
    cases W with
    | nil => simp at hfid
    | cons a l => exact absurd h (by simp [popDeepAux])
  | succ n ih =>
    intro W path st res h fid hfid k y hchain
    cases W with
    | nil => simp at hfid
    | cons a l =>
      obtain ⟨st1, fc1, ic1, rres, hch, hrest, _⟩ := popDeep_cons_elim h
      rcases List.mem_cons.mp hfid with rfl | hmem
      · cases k with
        | zero => omega
        | succ k2 =>
          obtain ⟨z, hz, hup⟩ := upIter_snoc hchain
          have hzmem : z ∈ subIds F fid := mem_subIds_of_upF hup
          have := ih hch z hzmem k2 y hz
          omega
      · have := ih hrest fid hmem k y hchain
        omega

/-- A successful run writes only at descendants of the worklist: any
changed key has a parent chain into some worklist member. -/
lemma popDeep_frame {F : List BaseFolder} {I : List BaseItem}
    (hnd : (F.map (·.id)).Nodup) :
    ∀ {n : Nat} {W path : List String} {st : FolderSt}
      {res : FolderSt × Nat × Nat},
      popDeepAux F I n W path st = some res →
      ∀ x, res.1 x ≠ st x → ∃ fid ∈ W, ∃ k, upIter F k x = some fid := by
  intro n
  induction n with
  | zero =>
    intro W path st res h x hx
    cases W with
    | nil =>
      rw [popDeepAux_nil] at h
      obtain rfl := Option.some.inj h
      exact absurd rfl hx
    | cons a l => exact absurd h (by simp [popDeepAux])
  | succ n ih =>
    intro W path st res h x hx
    cases W with
    | nil =>
      rw [popDeepAux_nil] at h
      obtain rfl := Option.some.inj h
      exact absurd rfl hx
    | cons a l =>
      obtain ⟨st1, fc1, ic1, rres, hch, hrest, heq⟩ := popDeep_cons_elim h
      subst heq
      by_cases hx3 : rres.1 x ≠ updSt st1 a ⟨path, (subIds F a).length + fc1,
          (directItemIds I a).length + ic1⟩ x
      · obtain ⟨fid, hfid, k, hk⟩ := ih hrest x hx3
        exact ⟨fid, List.mem_cons_of_mem a hfid, k, hk⟩
      · push_neg at hx3
        by_cases hxa : x = a
        · exact ⟨a, List.mem_cons_self a l, 0, by rw [hxa]; rfl⟩
        · have h1 : updSt st1 a ⟨path, (subIds F a).length + fc1,
              (directItemIds I a).length + ic1⟩ x = st1 x := updSt_ne hxa _
          have hst1 : st1 x ≠ st x := by
            rw [← h1, ← hx3]
            exact hx
          obtain ⟨g, hg, k, hk⟩ := ih hch x hst1
          exact ⟨a, List.mem_cons_self a l, k + 1,
            upIter_snoc_intro hk (upF_of_mem_subIds hnd hg)⟩

lemma cyc_unbounded {F : List BaseFolder} {k : Nat} {x : String}
    (h : upIter F k x = some x) : ∀ m : Nat, upIter F (m * k) x = some x := by
  intro m
  induction m with
  | zero => rw [Nat.zero_mul]; rfl
  | succ m ih =>
    have hmk : (m + 1) * k = m * k + k := by ring
    rw [hmk, upIter_add, ih]
    exact h

/-- Among worklist siblings (folders sharing one parent link), the only
parent chain from one to another is the empty chain from a folder to
itself: anything else closes a cycle below the worklist, contradicting
the depth bound of the successful run. -/
lemma no_cross_chain {F : List BaseFolder} {I : List BaseItem}
    {n : Nat} {W path : List String} {st : FolderSt}
    {res : FolderSt × Nat × Nat}
    (hsucc : popDeepAux F I n W path st = some res)
    {u : Option String} (hW : ∀ f ∈ W, upF F f = u)
    {f f2 : String} (hf : f ∈ W) (hf2 : f2 ∈ W) {k : Nat}
    (hchain : upIter F k f = some f2) : f = f2 ∧ k = 0 := by
  cases k with
  | zero => exact ⟨Option.some.inj hchain, rfl⟩
  | succ k2 =>
    exfalso
    have hhead : (upF F f).bind (upIter F k2) = some f2 := hchain
    rw [hW f hf] at hhead
    cases u with
    | none => simp at hhead
    | some p =>
      simp only [Option.some_bind] at hhead
      have hcyc : upIter F (k2 + 1) f2 = some f2 := by
        show (upF F f2).bind (upIter F k2) = some f2
        rw [hW f2 hf2]
        simpa using hhead
      have hbig := cyc_unbounded hcyc n
      have hlt := popDeep_depth_bound hsucc f2 hf2 (n * (k2 + 1)) f2 hbig
      have hge : n ≤ n * (k2 + 1) := Nat.le_mul_of_pos_right n (by omega)
      omega

/-- Parent chains are deterministic, so a key reaching two worklist
members reaches one member at one unique length. -/
lemma chains_unique {F : List BaseFolder} {I : List BaseItem}
    {n : Nat} {W path : List String} {st : FolderSt}
    {res : FolderSt × Nat × Nat}
    (hsucc : popDeepAux F I n W path st = some res)
    {u : Option String} (hW : ∀ f ∈ W, upF F f = u)
    {f f2 y : String} (hf : f ∈ W) (hf2 : f2 ∈ W) {a b : Nat}
    (ha : upIter F a y = some f) (hb : upIter F b y = some f2) :
    f = f2 ∧ a = b := by
  rcases le_total a b with hle | hle
  · have hsplit : b = a + (b - a) := by omega
    rw [hsplit, upIter_add, ha] at hb
    simp only [Option.some_bind] at hb
    obtain ⟨heq, hz⟩ := no_cross_chain hsucc hW hf hf2 hb
    exact ⟨heq, by omega⟩
  · have hsplit : a = b + (a - b) := by omega
    rw [hsplit, upIter_add, hb] at ha
    simp only [Option.some_bind] at ha
    obtain ⟨heq, hz⟩ := no_cross_chain hsucc hW hf2 hf ha
    exact ⟨heq.symm, by omega⟩

/-- Main invariant of the rollup traversal: a successful run over a
sibling worklist (folders sharing one parent link, without duplicates)
leaves every worklist member with an entry carrying the given path, whose
counts sum to the returned totals; and every folder below the worklist —
reachable through parent chains — satisfies the rollup recurrence
`RollupOk` in the final store. -/
lemma popDeep_main {F : List BaseFolder} {I : List BaseItem}
    (hnd : (F.map (·.id)).Nodup) :
    ∀ {n : Nat} {W path : List String} {st : FolderSt}
      {res : FolderSt × Nat × Nat} {u : Option String},
      popDeepAux F I n W path st = some res →
      (∀ f ∈ W, upF F f = u) → W.Nodup →
      (∃ ms : List FolderMeta, W.map res.1 = ms.map some ∧
        res.2.1 = (ms.map (·.folderCount)).sum ∧
        res.2.2 = (ms.map (·.itemCount)).sum ∧
        ∀ m ∈ ms, m.path = path) ∧
      (∀ x k f, f ∈ W → upIter F k x = some f → RollupOk F I res.1 x) := by
  intro n
  induction n with
  | zero =>
    intro W path st res u h hW hndW
    cases W with
    | nil =>
      rw [popDeepAux_nil] at h
      obtain rfl := Option.some.inj h
      exact ⟨⟨[], rfl, rfl, rfl, by simp⟩, fun x k f hf => by simp at hf⟩
    | cons a l => exact absurd h (by simp [popDeepAux])
  | succ n ih =>
    intro W path st res u h hW hndW
    cases W with
    | nil =>
      rw [popDeepAux_nil] at h
      obtain rfl := Option.some.inj h
      exact ⟨⟨[], rfl, rfl, rfl, by simp⟩, fun x k f hf => by simp at hf⟩
    | cons a l =>
      obtain ⟨st1, fc1, ic1, rres, hch, hrest, heq⟩ := popDeep_cons_elim h
      subst heq
      have hWc : ∀ g ∈ subIds F a, upF F g = some a :=
        fun g hg => upF_of_mem_subIds hnd hg
      obtain ⟨⟨msc, hmapc, hfcc, hicc, hpathc⟩, hvc⟩ :=
        ih hch hWc (subIds_nodup hnd a)
      have hWr : ∀ f ∈ l, upF F f = u :=
        fun f hf => hW f (List.mem_cons_of_mem a hf)
      obtain ⟨⟨msr, hmapr, hfcr, hicr, hpathr⟩, hvr⟩ :=
        ih hrest hWr (List.nodup_cons.mp hndW).2
      have hanotl : a ∉ l := (List.nodup_cons.mp hndW).1
      have hP1 : rres.1 a = some ⟨path, (subIds F a).length + fc1,
          (directItemIds I a).length + ic1⟩ := by
        by_cases hchg : rres.1 a ≠ updSt st1 a ⟨path, (subIds F a).length + fc1,
            (directItemIds I a).length + ic1⟩ a
        · obtain ⟨f2, hf2, k, hk⟩ := popDeep_frame hnd hrest a hchg
          obtain ⟨heq2, _⟩ := no_cross_chain h hW (List.mem_cons_self a l)
            (List.mem_cons_of_mem a hf2) hk
          exact absurd (heq2 ▸ hf2) hanotl
        · push_neg at hchg
          rw [hchg]
          exact updSt_self st1 a _
      have hP2 : ∀ x k, upIter F (k + 1) x = some a → rres.1 x = st1 x := by
        intro x k hk
        have hxa : x ≠ a := by
          intro heq2
          subst heq2
          obtain ⟨_, habs⟩ := no_cross_chain h hW (List.mem_cons_self x l)
            (List.mem_cons_self x l) hk
          omega
        have h1 : updSt st1 a ⟨path, (subIds F a).length + fc1,
            (directItemIds I a).length + ic1⟩ x = st1 x := updSt_ne hxa _
        by_cases hchg : rres.1 x ≠ updSt st1 a ⟨path, (subIds F a).length + fc1,
            (directItemIds I a).length + ic1⟩ x
        · obtain ⟨f2, hf2, j, hj⟩ := popDeep_frame hnd hrest x hchg
          obtain ⟨heq2, _⟩ := chains_unique h hW (List.mem_cons_self a l)
            (List.mem_cons_of_mem a hf2) hk hj
          exact absurd (heq2 ▸ hf2) hanotl
        · push_neg at hchg
          rw [hchg, h1]
      constructor
      · refine ⟨⟨path, (subIds F a).length + fc1,
          (directItemIds I a).length + ic1⟩ :: msr, ?_, ?_, ?_, ?_⟩
        · rw [List.map_cons, List.map_cons, hP1, hmapr]
        · simp only [List.map_cons, List.sum_cons]
          rw [hfcr]
        · simp only [List.map_cons, List.sum_cons]
          rw [hicr]
        · intro m hm
          rcases List.mem_cons.mp hm with rfl | hm2
          · rfl
          · exact hpathr m hm2
      · intro x k f hf hchain
        rcases List.mem_cons.mp hf with rfl | hfl
        · cases k with
          | zero =>
            obtain rfl : x = f := Option.some.inj hchain
            refine ⟨⟨path, (subIds F x).length + fc1,
              (directItemIds I x).length + ic1⟩, hP1, msc, ?_, ?_, ?_, ?_⟩
            · have hpoint : ∀ g ∈ subIds F x, rres.1 g = st1 g := by
                intro g hg
                exact hP2 g 0
                  (upIter_snoc_intro rfl (upF_of_mem_subIds hnd hg))
              rw [List.map_congr_left hpoint, hmapc]
            · have hfcc2 : fc1 = (msc.map (·.folderCount)).sum := hfcc
              rw [hfcc2]
            · have hicc2 : ic1 = (msc.map (·.itemCount)).sum := hicc
              rw [hicc2]
            · intro mg hmg
              rw [hpathc mg hmg]
          | succ k2 =>
            obtain ⟨z, hz, hup⟩ := upIter_snoc hchain
            have hzmem : z ∈ subIds F f := mem_subIds_of_upF hup
            obtain ⟨m, hm, msx, hmapx, hfcx, hicx, hpathx⟩ := hvc x k2 z hzmem hz
            have hxpres : rres.1 x = st1 x := hP2 x k2 hchain
            have hchildpres : ∀ g ∈ subIds F x, rres.1 g = st1 g := by
              intro g hg
              have hgx : upF F g = some x := upF_of_mem_subIds hnd hg
              have hstep : upIter F (1 + (k2 + 1)) g = some f := by
                rw [upIter_add]
                have h1 : upIter F 1 g = some x := by rw [upIter_one]; exact hgx
                rw [h1]
                simpa using hchain
              have hlen : 1 + (k2 + 1) = (k2 + 1) + 1 := by omega
              exact hP2 g (k2 + 1) (by rw [← hlen]; exact hstep)
            refine ⟨m, by rw [hxpres]; exact hm, msx, ?_, hfcx, hicx, hpathx⟩
            rw [List.map_congr_left hchildpres, hmapx]
        · exact hvr x k f hfl hchain

/-- C1 — Hierarchy Builder rollup correctness.  Concretely: for root `F1`,
its child `F2`, and items `I1 ∈ F1`, `I2 ∈ F2`, the built snapshot gives
`F1` an `itemCount` of 2, a `folderCount` of 1 and the empty path, and
gives `F2` the path `[F1]`.  Generally: over folders with unique
identities (the data model's identity invariant), whenever the rollup
traversal completes, every root receives the empty path, and every folder
the traversal reached — i.e. every folder holding an entry, which the
frame lemma shows is exactly the parent-chain descendants of the roots —
satisfies the rollup recurrence: its counts are its direct buckets plus
the sums of its sub-folders' rollups, and each sub-folder's path is the
folder's own path extended by the folder, so paths are the ordered strict
ancestor chains. -/
theorem c1_hierarchy_rollup :
    (nestData true [⟨"F1", none⟩, ⟨"F2", some "F1"⟩]
        [⟨"I1", "F1"⟩, ⟨"I2", "F2"⟩] 5 =
      some [⟨"F1", none, ["I1"], ["F2"], 2, 1, []⟩,
        ⟨"F2", some "F1", ["I2"], [], 1, 0, ["F1"]⟩]) ∧
    (∀ (F : List BaseFolder) (I : List BaseItem) (n : Nat) (st : FolderSt),
      (F.map (·.id)).Nodup → nestState F I n = some st →
      (∀ r ∈ rootIds F, ∃ m, st r = some m ∧ m.path = []) ∧
      (∀ x m, st x = some m → RollupOk F I st x)) := by
  constructor
  · decide
  · intro F I n st hnd hst
    unfold nestState at hst
    cases hpop : popDeepAux F I n (rootIds F) [] (fun _ => none) with
    | none => rw [hpop] at hst; exact absurd hst (by simp)
    | some res =>
      rw [hpop] at hst
      obtain rfl : res.1 = st := Option.some.inj hst
      have hW : ∀ r ∈ rootIds F, upF F r = (none : Option String) :=
        fun r hr => upF_of_mem_rootIds hnd hr
      obtain ⟨⟨ms, hmap, _, _, hpaths⟩, hv⟩ :=
        popDeep_main hnd hpop hW (rootIds_nodup hnd)
      constructor
      · intro r hr
        have hmem : res.1 r ∈ (rootIds F).map res.1 :=
          List.mem_map_of_mem res.1 hr
        rw [hmap] at hmem
        obtain ⟨m, hm, hmr⟩ := List.mem_map.mp hmem
        exact ⟨m, hmr.symm, hpaths m hm⟩
      · intro x m hm
        have hx : res.1 x ≠ (fun _ => (none : Option FolderMeta)) x := by
          rw [hm]; simp
        obtain ⟨f, hf, k, hk⟩ := popDeep_frame hnd hpop x hx
        exact hv x k f hf hk

/-- C1 witness: the general rollup theorem instantiated on the two-folder,
two-item example — its hypotheses hold by computation, and the conclusion
delivers the rollup recurrence at the root `F1` of the built store. -/
theorem c1_hierarchy_rollup_witness :
    RollupOk [⟨"F1", none⟩, ⟨"F2", some "F1"⟩] [⟨"I1", "F1"⟩, ⟨"I2", "F2"⟩]
      (fun x => getMeta [⟨"F1", none⟩, ⟨"F2", some "F1"⟩]
        [⟨"I1", "F1"⟩, ⟨"I2", "F2"⟩] 5 x) "F1" := by
  have hs : (nestState [⟨"F1", none⟩, ⟨"F2", some "F1"⟩]
      [⟨"I1", "F1"⟩, ⟨"I2", "F2"⟩] 5).isSome := by decide
  obtain ⟨st, hst⟩ := Option.isSome_iff_exists.mp hs
  have hfun : (fun x => getMeta [⟨"F1", none⟩, ⟨"F2", some "F1"⟩]
      [⟨"I1", "F1"⟩, ⟨"I2", "F2"⟩] 5 x) = st := by
    funext x
    rw [getMeta, hst]
    rfl
  rw [hfun]
  have h := (c1_hierarchy_rollup.2 [⟨"F1", none⟩, ⟨"F2", some "F1"⟩]
    [⟨"I1", "F1"⟩, ⟨"I2", "F2"⟩] 5 st (by decide) hst)
  obtain ⟨m, hm, _⟩ := h.1 "F1" (by decide)
  exact h.2 "F1" m hm
